import Mathlib

/-!
Verification of the taxonomy-reconciliation and scoring engine of
`generate_report.py` (Project-Aegis).

Scores are embedded as integers (`Int`), derived means as rationals (`ℚ`).
Python's `round(x, 2)` is embedded as round-half-to-even at two decimal
places over `ℚ`.  Python dictionaries are embedded as insertion-ordered
association lists (`List (String × α)`) with unique-key insertion
(`setEntry` replaces in place or appends at the end, exactly the update
semantics of a Python dict).
-/

/-- Round half to even on rationals (the rounding mode of Python's
built-in `round`), at integer granularity. -/
def roundHalfEven (q : ℚ) : ℤ :=
  if q - ⌊q⌋ < 1/2 then ⌊q⌋
  else if 1/2 < q - ⌊q⌋ then ⌊q⌋ + 1
  else if ⌊q⌋ % 2 = 0 then ⌊q⌋ else ⌊q⌋ + 1

/-- `round(x, 2)` from the source: round to two decimal places. -/
def round2 (q : ℚ) : ℚ := (roundHalfEven (q * 100) : ℚ) / 100

/-- Embeds `mean_score` (generate_report.py, lines 157-159):
`round(sum(vals) / max(len(vals), 1), 2)` over the dict's values. -/
def mean_score (scores : List (String × Int)) : ℚ :=
  round2 ((scores.map (fun kv => (kv.2 : ℚ))).sum / ((max scores.length 1 : ℕ) : ℚ))

/-- Embeds `maturity_label` (generate_report.py, lines 162-172). -/
def maturity_label (score : ℚ) : String :=
  if score ≥ 4.25 then "Optimized"
  else if score ≥ 3.25 then "Managed"
  else if score ≥ 2.25 then "Developing"
  else if score ≥ 1.25 then "Basic"
  else "At Risk"

/-- Embeds the overall-score computation of `generate_pdf`
(generate_report.py, lines 486-487):
`per_cat_scores = {k: mean_score(v) for k, v in assessment.items()}` and
`overall = round(sum(per_cat_scores.values()) / 3.0, 2)`. -/
def overall_score (assessment : List (String × List (String × Int))) : ℚ :=
  round2 ((assessment.map (fun kv => mean_score kv.2)).sum / 3)

/-! ### Python dictionaries as insertion-ordered association lists -/

/-- `d[k]` / `k in d`: first (and in a real dict only) binding of `k`. -/
def lookupKey {α : Type} : List (String × α) → String → Option α
  | [], _ => none
  | (k1, v) :: rest, k => if k1 = k then some v else lookupKey rest k

/-- `d[k] = v`: replace in place if the key exists (keeping its position,
as a Python dict does), otherwise append at the end. -/
def setEntry {α : Type} : List (String × α) → String → α → List (String × α)
  | [], k, v => [(k, v)]
  | (k1, v1) :: rest, k, v =>
    if k1 = k then (k, v) :: rest else (k1, v1) :: setEntry rest k v

/-! ### Character-level string primitives

Lean's built-in `String` operations are byte-position based and do not
reduce in the kernel, so the Python string operations are embedded over
`String.data : List Char`. -/

/-- `s.lower()` (ASCII; all labels in this program are ASCII). -/
def lowerStr (s : String) : String := String.mk (s.data.map Char.toLower)

/-- `s.startswith(p)`. -/
def startsWithStr (s p : String) : Bool := p.data.isPrefixOf s.data

/-- `s[n:]`. -/
def dropStr (s : String) (n : ℕ) : String := String.mk (s.data.drop n)

def trimChars (cs : List Char) : List Char :=
  ((cs.dropWhile Char.isWhitespace).reverse.dropWhile Char.isWhitespace).reverse

/-- `s.strip()` (whitespace on both ends). -/
def strip (s : String) : String := String.mk (trimChars s.data)

/-- Is `c` in `[a-z0-9]`? (the character class of the `norm` regex). -/
def isAlnumLower (c : Char) : Bool :=
  (97 ≤ c.toNat && c.toNat ≤ 122) || (48 ≤ c.toNat && c.toNat ≤ 57)

/-- Collapse each run of consecutive spaces to a single space. -/
def squeezeSpaces : List Char → List Char
  | [] => []
  | [c] => [c]
  | a :: b :: rest =>
    if a = ' ' && b = ' ' then squeezeSpaces (b :: rest)
    else a :: squeezeSpaces (b :: rest)

def stripSpaces (cs : List Char) : List Char :=
  ((cs.dropWhile (fun c => c = ' ')).reverse.dropWhile (fun c => c = ' ')).reverse

/-- Embeds `norm` inside `canonicalize_assessment` (generate_report.py,
lines 305-306): `re.sub(r"[^a-z0-9]+", " ", s.lower()).strip()` — lower-case,
collapse every run of non-alphanumeric characters to a single space, trim. -/
def normKey (s : String) : String :=
  String.mk (stripSpaces (squeezeSpaces
    ((lowerStr s).data.map (fun c => if isAlnumLower c then c else ' '))))

/-- Embeds the `ALIASES` table (generate_report.py, lines 236-261),
in source order. -/
def ALIASES : List (String × List (String × String)) :=
  [("Operations",
    [("Backups & Recovery", "Disaster Recovery Procedures & Testing"),
     ("Patch Management", "Patch & Update Governance"),
     ("Monitoring & Alerting", "Monitoring & Alerting"),
     ("Change Management", "Change Management"),
     ("Documentation", "Documentation & Knowledge Base"),
     ("Vendor Management", "Vendor & SaaS Governance")]),
   ("Users",
    [("MFA Adoption", "Authentication Controls (MFA, Conditional Access)"),
     ("Access Reviews", "Access Reviews & Least Privilege"),
     ("Security Training", "Security Awareness Training"),
     ("Password Hygiene", "Password Management (Password Manager Adoption)"),
     ("On/Offboarding", "User Account Lifecycle (Joiner / Mover / Leaver)"),
     ("Privileged Access", "Privileged Access Management")]),
   ("Devices",
    [("Endpoint Protection", "Endpoint Protection (AV / EDR)"),
     ("Disk Encryption", "Disk Encryption"),
     ("OS Compliance", "OS & Application Compliance"),
     ("MDM / Policy", "Device Management Platform (MDM / RMM)"),
     ("Asset Inventory", "Asset Inventory Accuracy"),
     ("Local Admin Control", "Local Admin Control")])]

/-- The fixed category tuple `("Operations", "Users", "Devices")` iterated
by `canonicalize_assessment`. -/
def recognizedCats : List String := ["Operations", "Users", "Devices"]

/-- Embeds the alias-resolution loop of `canonicalize_assessment`
(lines 322-325): first entry `(old, new)` of the alias table with
`new == sc` and `old in raw_cat` wins (`break`). -/
def aliasScore : List (String × String) → List (String × Int) → String → Option Int
  | [], _, _ => none
  | (old, nw) :: rest, rawCat, sc =>
    if nw = sc then
      match lookupKey rawCat old with
      | some v => some v
      | none => aliasScore rest rawCat sc
    else aliasScore rest rawCat sc

/-- Embeds `normalized_raw = {norm(k): v for k, v in raw_cat.items()}`
(line 311): a later raw key whose normalized form collides with an earlier
one overrides it, as in a Python dict comprehension. -/
def buildNormDict (rawCat : List (String × Int)) : List (String × Int) :=
  rawCat.foldl (fun d kv => setEntry d (normKey kv.1) kv.2) []

/-- Embeds the normalized-match step (lines 327-330). -/
def normScore (rawCat : List (String × Int)) (sc : String) : Option Int :=
  lookupKey (buildNormDict rawCat) (normKey sc)

/-- Embeds the per-subcategory score resolution of `canonicalize_assessment`
(lines 315-331): exact match, else alias match, else normalized match, else
the default score (`int()` on an `int` is the identity). -/
def resolveScore (rawCat : List (String × Int)) (amap : List (String × String))
    (sc : String) (default_score : Int) : Int :=
  match lookupKey rawCat sc with
  | some v => v
  | none =>
    match aliasScore amap rawCat sc with
    | some v => v
    | none =>
      match normScore rawCat sc with
      | some v => v
      | none => default_score

/-- Embeds `canonicalize_assessment` (generate_report.py, lines 297-333). -/
def canonicalize_assessment (assessment_raw : List (String × List (String × Int)))
    (canonical : List (String × List String)) (default_score : Int) :
    List (String × List (String × Int)) :=
  recognizedCats.foldl (fun result category =>
    setEntry result category
      (((lookupKey canonical category).getD []).foldl
        (fun m sc => setEntry m sc
          (resolveScore ((lookupKey assessment_raw category).getD [])
            ((lookupKey ALIASES category).getD []) sc default_score)) [])) []

/-! ### Canonical taxonomy parsing -/

/-- Embeds `DEFAULT_ASSESSMENT` (generate_report.py, lines 57-101). -/
def DEFAULT_ASSESSMENT : List (String × List (String × Int)) :=
  [("Operations",
    [("Documentation & Knowledge Base", 2),
     ("Change Management", 2),
     ("Incident & Problem Management", 2),
     ("Monitoring & Alerting", 2),
     ("Recovery Planning (RTO / RPO)", 2),
     ("Disaster Recovery Procedures & Testing", 2),
     ("Patch & Update Governance", 2),
     ("Asset Lifecycle Management", 2),
     ("Vendor & SaaS Governance", 2),
     ("Control Auditing & Evidence Collection", 2),
     ("Periodic Access & Configuration Reviews", 2),
     ("Policy Compliance & Attestation", 2),
     ("Third-Party & Security Review Readiness", 2)]),
   ("Users",
    [("User Account Lifecycle (Joiner / Mover / Leaver)", 2),
     ("Authentication Controls (MFA, Conditional Access)", 2),
     ("Privileged Access Management", 2),
     ("Access Reviews & Least Privilege", 2),
     ("Password Management (Password Manager Adoption)", 2),
     ("Microsoft 365 / Google Workspace Backup", 2),
     ("User Data Retention & Recovery", 2),
     ("Security Awareness Training", 2),
     ("Phishing & Social Engineering Defense", 2),
     ("Acceptable Use & IT Policies (User Awareness)", 2),
     ("User Support & Enablement", 2)]),
   ("Devices",
    [("Endpoint Protection (AV / EDR)", 2),
     ("Disk Encryption", 2),
     ("OS & Application Compliance", 2),
     ("Endpoint Backups", 2),
     ("Endpoint Restore Testing", 2),
     ("Device Management Platform (MDM / RMM)", 2),
     ("Patch Enforcement (Devices)", 2),
     ("Local Admin Control", 2),
     ("Asset Inventory Accuracy", 2),
     ("BYOD & Personal Devices", 2),
     ("Device Lifecycle & Replacement", 2)])]

/-- `{k: list(v.keys()) for k, v in DEFAULT_ASSESSMENT.items()}`: the
built-in default taxonomy returned on parse failure. -/
def defaultTaxonomy : List (String × List String) :=
  DEFAULT_ASSESSMENT.map (fun kv => (kv.1, kv.2.map Prod.fst))

/-- `line.startswith("## ") and not line.startswith("###")` (line 275). -/
def isH2 (line : String) : Bool :=
  startsWithStr line "## " && !(startsWithStr line "###")

/-- `h2 = line[3:].strip()` (line 276). -/
def h2Of (line : String) : String := strip (dropStr line 3)

/-- `line.startswith("- ")` (line 282). -/
def isBullet (line : String) : Bool := startsWithStr line "- "

/-- `item = line[2:].strip()` followed by the redundant `item.rstrip()`
(lines 283-285). -/
def bulletItem (line : String) : String := strip (dropStr line 2)

/-- `categories[current].append(item)` (line 286); `current` is always a
key of `categories` when set, so the no-op on a missing key is unreachable. -/
def appendEntry : List (String × List String) → String → String →
    List (String × List String)
  | [], _, _ => []
  | (k1, v1) :: rest, k, x =>
    if k1 = k then (k1, v1 ++ [x]) :: appendEntry rest k x
    else (k1, v1) :: appendEntry rest k x

/-- The line loop of `parse_canonical_categories` (lines 273-286). -/
def parseLoop : List (String × List String) → Option String → List String →
    List (String × List String)
  | cats, _, [] => cats
  | cats, cur, raw :: ls =>
    if isH2 (strip raw) then
      (if h2Of (strip raw) ∈ recognizedCats
       then parseLoop (setEntry cats (h2Of (strip raw)) []) (some (h2Of (strip raw))) ls
       else parseLoop cats none ls)
    else if isBullet (strip raw) then
      (match cur with
       | some c => parseLoop (appendEntry cats c (bulletItem (strip raw))) cur ls
       | none => parseLoop cats cur ls)
    else parseLoop cats cur ls

/-- The deduplication loop with a `seen` set (lines 288-290): keep the
first occurrence of each string, preserving order. -/
def dedupAux (seen : List String) : List String → List String
  | [] => []
  | x :: xs => if x ∈ seen then dedupAux seen xs else x :: dedupAux (x :: seen) xs

def dedupFirst (l : List String) : List String := dedupAux [] l

/-- The parse of a successfully read file body. -/
def parseLines (lines : List String) : List (String × List String) :=
  (parseLoop [] none lines).map (fun kv => (kv.1, dedupFirst kv.2))

/-- Embeds `parse_canonical_categories` (generate_report.py, lines 264-294).
The input models the file system interaction: `none` is a missing file
(`os.path.exists` false), `some (Except.error ())` a read that raises, and
`some (Except.ok lines)` the file's lines; the loop itself is pure and
cannot raise. -/
def parse_canonical_categories : Option (Except Unit (List String)) →
    List (String × List String)
  | none => defaultTaxonomy
  | some (Except.error _) => defaultTaxonomy
  | some (Except.ok lines) => parseLines lines

/-- Does this raw line open category `cat`'s collection scope (a
second-level heading whose stripped text is exactly `cat`)? -/
def opensCat (cat : String) (raw : String) : Bool :=
  isH2 (strip raw) && (h2Of (strip raw) == cat)

/-- Does this raw line open any recognized category's scope? -/
def opensScope (raw : String) : Bool :=
  isH2 (strip raw) && decide (h2Of (strip raw) ∈ recognizedCats)

/-- Bullet items (trimmed) at the head of `ls`, up to the first heading
of any kind (only headings change the open scope). -/
def leadBullets : List String → List String
  | [] => []
  | raw :: ls =>
    if isH2 (strip raw) then []
    else if isBullet (strip raw) then bulletItem (strip raw) :: leadBullets ls
    else leadBullets ls

/-- Specification-side description of the parse: the bullet items collected
under the last occurrence of `cat`'s heading, up to the next heading;
`none` when the heading never occurs. -/
def collectAfterLast (cat : String) : List String → Option (List String)
  | [] => none
  | raw :: ls =>
    match collectAfterLast cat ls with
    | some v => some v
    | none => if opensCat cat raw then some (leadBullets ls) else none

/-- Specification-side collector written from the spec's parsing rule: one
current scope; a heading exactly matching a recognized category name opens
its scope, any other heading closes the current scope; bullet items,
trimmed, are collected whenever `cat`'s scope is open. -/
def specCollect (cat : String) : Option String → List String → List String
  | _, [] => []
  | cur, raw :: ls =>
    if isH2 (strip raw) then
      (if h2Of (strip raw) ∈ recognizedCats
       then specCollect cat (some (h2Of (strip raw))) ls
       else specCollect cat none ls)
    else if isBullet (strip raw) then
      (if cur = some cat then bulletItem (strip raw) :: specCollect cat cur ls
       else specCollect cat cur ls)
    else specCollect cat cur ls

/-- Number of lines opening `cat`'s scope. -/
def countHeading (cat : String) (ls : List String) : ℕ :=
  (ls.filter (opensCat cat)).length

lemma floor_le_roundHalfEven (q : ℚ) : ⌊q⌋ ≤ roundHalfEven q := by
  unfold roundHalfEven
  split_ifs <;> omega

lemma roundHalfEven_le_ceil (q : ℚ) : roundHalfEven q ≤ ⌈q⌉ := by
  unfold roundHalfEven
  split_ifs with h1 h2 h3
  · exact Int.floor_le_ceil q
  all_goals
    have hlt : ⌊q⌋ < ⌈q⌉ := by
      by_contra hc
      push_neg at hc
      have hle : q ≤ (⌊q⌋ : ℚ) := by
        have hcq := Int.le_ceil q
        have : ((⌈q⌉ : ℤ) : ℚ) ≤ ((⌊q⌋ : ℤ) : ℚ) := by exact_mod_cast hc
        linarith
      have : q - ⌊q⌋ < 1/2 := by linarith
      exact h1 this
  all_goals omega

lemma round2_nonneg (q : ℚ) (h : 0 ≤ q) : 0 ≤ round2 q := by
  unfold round2
  have h1 : (0 : ℤ) ≤ ⌊q * 100⌋ := Int.floor_nonneg.mpr (by linarith)
  have h2 : (0 : ℤ) ≤ roundHalfEven (q * 100) :=
    le_trans h1 (floor_le_roundHalfEven _)
  have h3 : (0 : ℚ) ≤ (roundHalfEven (q * 100) : ℚ) := by exact_mod_cast h2
  positivity

lemma round2_le_five (q : ℚ) (h : q ≤ 5) : round2 q ≤ 5 := by
  unfold round2
  have h1 : ⌈q * 100⌉ ≤ (500 : ℤ) := Int.ceil_le.mpr (by push_cast; linarith)
  have h2 : roundHalfEven (q * 100) ≤ (500 : ℤ) :=
    le_trans (roundHalfEven_le_ceil _) h1
  have h3 : (roundHalfEven (q * 100) : ℚ) ≤ 500 := by exact_mod_cast h2
  rw [div_le_iff₀ (by norm_num : (0:ℚ) < 100)]
  linarith

lemma round2_intCast (n : ℤ) : round2 (n : ℚ) = n := by
  unfold round2 roundHalfEven
  have h1 : ((n : ℚ) * 100) = ((n * 100 : ℤ) : ℚ) := by push_cast; ring
  rw [h1, Int.floor_intCast, sub_self]
  rw [if_pos (by norm_num : (0:ℚ) < 1/2)]
  push_cast
  ring

lemma mean_score_nonempty (scores : List (String × Int)) (h : scores ≠ []) :
    mean_score scores =
      round2 ((scores.map (fun kv => (kv.2 : ℚ))).sum / (scores.length : ℚ)) := by
  unfold mean_score
  have hlen : 1 ≤ scores.length := List.length_pos.mpr h
  rw [max_eq_left hlen]

lemma mean_score_single (n : String) (v : Int) : mean_score [(n, v)] = (v : ℚ) := by
  rw [mean_score_nonempty _ (by simp)]
  simp only [List.map_cons, List.map_nil, List.sum_cons, List.sum_nil,
    List.length_cons, List.length_nil]
  norm_num
  exact round2_intCast v

/-- C3: the banding function maps a score to a maturity band via closed
lower bounds evaluated highest-first: `s ≥ 4.25` is Optimized, else
`s ≥ 3.25` is Managed, else `s ≥ 2.25` is Developing, else `s ≥ 1.25` is
Basic, else At Risk; in particular `band 4.25 = Optimized`,
`band 4.24 = Managed`, `band 3.25 = Managed`, `band 3.24 = Developing`
and `band 0 = At Risk`. -/
theorem maturity_label_bands :
    (∀ s : ℚ, 4.25 ≤ s → maturity_label s = "Optimized") ∧
    (∀ s : ℚ, 3.25 ≤ s → s < 4.25 → maturity_label s = "Managed") ∧
    (∀ s : ℚ, 2.25 ≤ s → s < 3.25 → maturity_label s = "Developing") ∧
    (∀ s : ℚ, 1.25 ≤ s → s < 2.25 → maturity_label s = "Basic") ∧
    (∀ s : ℚ, s < 1.25 → maturity_label s = "At Risk") ∧
    maturity_label 4.25 = "Optimized" ∧ maturity_label 4.24 = "Managed" ∧
    maturity_label 3.25 = "Managed" ∧ maturity_label 3.24 = "Developing" ∧
    maturity_label 0 = "At Risk" := by
  refine ⟨?_, ?_, ?_, ?_, ?_, by norm_num [maturity_label], by norm_num [maturity_label],
    by norm_num [maturity_label], by norm_num [maturity_label], by norm_num [maturity_label]⟩
  all_goals
    intro s h
    try intro h2
  all_goals
    unfold maturity_label
    split_ifs <;> first | rfl | linarith

/-- Witness for C3 at a concrete score. -/
theorem maturity_label_bands_witness :
    (4.25 : ℚ) ≤ 4.3 ∧ maturity_label 4.3 = "Optimized" :=
  ⟨by norm_num, maturity_label_bands.1 4.3 (by norm_num)⟩

/-- C4: `mean_score` returns the arithmetic mean of the values rounded to
two decimals; the empty mapping yields 0 (the divisor is `max len 1`, so
no division by zero); the mean of `{A:2, B:3, C:4}` is exactly 3. -/
theorem mean_score_spec :
    (∀ scores : List (String × Int), scores ≠ [] →
      mean_score scores =
        round2 ((scores.map (fun kv => (kv.2 : ℚ))).sum / (scores.length : ℚ))) ∧
    mean_score [] = 0 ∧
    mean_score [("A", 2), ("B", 3), ("C", 4)] = 3 := by
  refine ⟨mean_score_nonempty, ?_, ?_⟩
  · unfold mean_score
    simp only [List.map_nil, List.sum_nil, zero_div]
    have h := round2_intCast 0
    simpa using h
  · rw [mean_score_nonempty _ (by simp)]
    simp only [List.map_cons, List.map_nil, List.sum_cons, List.sum_nil,
      List.length_cons, List.length_nil]
    norm_num
    have h := round2_intCast 3
    push_cast at h
    exact_mod_cast h

/-- Witness for C4 on a concrete nonempty mapping. -/
theorem mean_score_spec_witness :
    [(("A" : String), (2 : Int)), ("B", 3), ("C", 4)] ≠ [] ∧
    mean_score [("A", 2), ("B", 3), ("C", 4)] =
      round2 (([(("A" : String), (2 : Int)), ("B", 3), ("C", 4)].map
        (fun kv => (kv.2 : ℚ))).sum / 3) :=
  ⟨by simp, by
    have h := mean_score_spec.1 [("A", 2), ("B", 3), ("C", 4)] (by simp)
    simpa using h⟩

/-- C7: for a three-category assessment the overall score is the mean of
exactly the three per-category means, rounded to two decimals, and it lies
in `[0, 5]` whenever each category mean does. -/
theorem overall_score_spec :
    ∀ (n1 n2 n3 : String) (s1 s2 s3 : List (String × Int)),
    overall_score [(n1, s1), (n2, s2), (n3, s3)] =
      round2 ((mean_score s1 + mean_score s2 + mean_score s3) / 3) ∧
    (0 ≤ mean_score s1 → mean_score s1 ≤ 5 →
     0 ≤ mean_score s2 → mean_score s2 ≤ 5 →
     0 ≤ mean_score s3 → mean_score s3 ≤ 5 →
      0 ≤ overall_score [(n1, s1), (n2, s2), (n3, s3)] ∧
      overall_score [(n1, s1), (n2, s2), (n3, s3)] ≤ 5) := by
  intro n1 n2 n3 s1 s2 s3
  have heq : overall_score [(n1, s1), (n2, s2), (n3, s3)] =
      round2 ((mean_score s1 + mean_score s2 + mean_score s3) / 3) := by
    unfold overall_score
    congr 1
    simp only [List.map_cons, List.map_nil, List.sum_cons, List.sum_nil]
    ring
  refine ⟨heq, ?_⟩
  intro h1 h2 h3 h4 h5 h6
  rw [heq]
  constructor
  · exact round2_nonneg _ (by positivity)
  · apply round2_le_five
    rw [div_le_iff₀ (by norm_num : (0:ℚ) < 3)]
    linarith

/-- Witness for C7 at a concrete three-category assessment. -/
theorem overall_score_spec_witness :
    0 ≤ overall_score
        [("Operations", [("X", 5)]), ("Users", [("Y", 0)]), ("Devices", [("Z", 4)])] ∧
    overall_score
        [("Operations", [("X", 5)]), ("Users", [("Y", 0)]), ("Devices", [("Z", 4)])] ≤ 5 :=
  (overall_score_spec "Operations" "Users" "Devices"
      [("X", 5)] [("Y", 0)] [("Z", 4)]).2
    (by rw [mean_score_single]; norm_num) (by rw [mean_score_single]; norm_num)
    (by rw [mean_score_single]; norm_num) (by rw [mean_score_single]; norm_num)
    (by rw [mean_score_single]; norm_num) (by rw [mean_score_single]; norm_num)

/-! ### Association-list lemmas -/

lemma lookupKey_setEntry {α : Type} (d : List (String × α)) (k k1 : String) (v : α) :
    lookupKey (setEntry d k v) k1 = if k = k1 then some v else lookupKey d k1 := by
  induction d with
  | nil => simp [setEntry, lookupKey]
  | cons kv rest ih =>
    obtain ⟨k2, v2⟩ := kv
    by_cases h2 : k2 = k
    · subst h2
      simp only [setEntry, if_pos rfl, lookupKey]
      by_cases h1 : k2 = k1
      · subst h1; simp [lookupKey]
      · simp [lookupKey, h1]
    · simp only [setEntry, if_neg h2, lookupKey]
      by_cases h1 : k2 = k1
      · subst h1
        have hk : ¬ (k = k2) := fun hh => h2 hh.symm
        simp [hk]
      · simp [h1, ih]

lemma mem_keys_setEntry {α : Type} (d : List (String × α)) (k k1 : String) (v : α) :
    k1 ∈ (setEntry d k v).map Prod.fst ↔ k1 = k ∨ k1 ∈ d.map Prod.fst := by
  induction d with
  | nil => simp [setEntry]
  | cons kv rest ih =>
    obtain ⟨k2, v2⟩ := kv
    by_cases h2 : k2 = k
    · subst h2; simp [setEntry]
    · simp only [setEntry, if_neg h2, List.map_cons, List.mem_cons, ih]
      tauto

lemma nodup_keys_setEntry {α : Type} (d : List (String × α)) (k : String) (v : α)
    (h : (d.map Prod.fst).Nodup) : ((setEntry d k v).map Prod.fst).Nodup := by
  induction d with
  | nil => simp [setEntry]
  | cons kv rest ih =>
    obtain ⟨k2, v2⟩ := kv
    simp only [List.map_cons, List.nodup_cons] at h
    by_cases h2 : k2 = k
    · subst h2
      simpa [setEntry, List.nodup_cons] using h
    · simp only [setEntry, if_neg h2, List.map_cons, List.nodup_cons]
      refine ⟨?_, ih h.2⟩
      rw [mem_keys_setEntry]
      rintro (rfl | hmem)
      · exact h2 rfl
      · exact h.1 hmem

lemma lookupKey_foldl_set {α : Type} (f : String → α) (l : List String)
    (init : List (String × α)) (k : String) :
    lookupKey (l.foldl (fun m sc => setEntry m sc (f sc)) init) k =
      if k ∈ l then some (f k) else lookupKey init k := by
  induction l generalizing init with
  | nil => simp
  | cons a l ih =>
    simp only [List.foldl_cons]
    rw [ih]
    by_cases hk : k ∈ l
    · simp [hk]
    · by_cases ha : k = a
      · subst ha
        simp [hk, lookupKey_setEntry]
      · have ha2 : ¬ (a = k) := fun hh => ha hh.symm
        simp [hk, ha, lookupKey_setEntry, ha2]

lemma mem_keys_foldl_set {α : Type} (f : String → α) (l : List String)
    (init : List (String × α)) (k : String) :
    k ∈ (l.foldl (fun m sc => setEntry m sc (f sc)) init).map Prod.fst ↔
      k ∈ l ∨ k ∈ init.map Prod.fst := by
  induction l generalizing init with
  | nil => simp
  | cons a l ih =>
    simp only [List.foldl_cons, ih, mem_keys_setEntry, List.mem_cons]
    tauto

lemma nodup_keys_foldl_set {α : Type} (f : String → α) (l : List String)
    (init : List (String × α)) (h : (init.map Prod.fst).Nodup) :
    ((l.foldl (fun m sc => setEntry m sc (f sc)) init).map Prod.fst).Nodup := by
  induction l generalizing init with
  | nil => simpa using h
  | cons a l ih =>
    simp only [List.foldl_cons]
    exact ih _ (nodup_keys_setEntry _ _ _ h)

lemma lookupKey_mem {α : Type} (d : List (String × α)) (k : String) (v : α)
    (h : lookupKey d k = some v) : (k, v) ∈ d := by
  induction d with
  | nil => simp [lookupKey] at h
  | cons kv rest ih =>
    obtain ⟨k1, v1⟩ := kv
    by_cases h1 : k1 = k
    · subst h1
      have h2 : v1 = v := by simpa [lookupKey] using h
      subst h2
      exact List.mem_cons_self _ _
    · simp only [lookupKey, if_neg h1] at h
      exact List.mem_cons_of_mem _ (ih h)

lemma lookupKey_canonicalize (raw : List (String × List (String × Int)))
    (canon : List (String × List String)) (d : Int) (cat : String) :
    lookupKey (canonicalize_assessment raw canon d) cat =
      if cat ∈ recognizedCats then
        some (((lookupKey canon cat).getD []).foldl
          (fun m sc => setEntry m sc
            (resolveScore ((lookupKey raw cat).getD [])
              ((lookupKey ALIASES cat).getD []) sc d)) [])
      else none := by
  unfold canonicalize_assessment
  rw [lookupKey_foldl_set]
  simp [lookupKey]

/-- C1: for every raw assessment and every canonical taxonomy, the
reconciled mapping for each recognized category has key set exactly the
taxonomy's subcategory list for that category, with exactly one score per
canonical subcategory (the key list is duplicate-free). -/
theorem canonicalize_key_set_exact :
    ∀ (raw : List (String × List (String × Int))) (canon : List (String × List String))
      (d : Int) (cat : String), cat ∈ recognizedCats →
    ∃ m, lookupKey (canonicalize_assessment raw canon d) cat = some m ∧
      (∀ sc, sc ∈ m.map Prod.fst ↔ sc ∈ (lookupKey canon cat).getD []) ∧
      (m.map Prod.fst).Nodup := by
  intro raw canon d cat hcat
  refine ⟨((lookupKey canon cat).getD []).foldl
      (fun m sc => setEntry m sc
        (resolveScore ((lookupKey raw cat).getD [])
          ((lookupKey ALIASES cat).getD []) sc d)) [], ?_, ?_, ?_⟩
  · rw [lookupKey_canonicalize, if_pos hcat]
  · intro sc
    rw [mem_keys_foldl_set]
    simp
  · exact nodup_keys_foldl_set _ _ _ (by simp)

/-- Witness for C1 on a concrete raw assessment and taxonomy. -/
theorem canonicalize_key_set_exact_witness :
    ("Operations" : String) ∈ recognizedCats ∧
    ∃ m, lookupKey (canonicalize_assessment [("Operations", [("Foo", 5)])]
        [("Operations", ["A", "B"])] 2) "Operations" = some m ∧
      (∀ sc, sc ∈ m.map Prod.fst ↔
        sc ∈ (lookupKey [("Operations", ["A", "B"])] "Operations").getD []) ∧
      (m.map Prod.fst).Nodup :=
  ⟨by decide, canonicalize_key_set_exact _ _ _ _ (by decide)⟩

/-- C8: the reconciled assessment always has exactly the three top-level
keys Operations, Users, Devices in that order; any other raw top-level
category is dropped, and a category missing from the taxonomy yields an
empty score mapping. -/
theorem canonicalize_top_level :
    ∀ (raw : List (String × List (String × Int))) (canon : List (String × List String))
      (d : Int),
    (canonicalize_assessment raw canon d).map Prod.fst =
      ["Operations", "Users", "Devices"] ∧
    (∀ cat : String, cat ∉ recognizedCats →
      lookupKey (canonicalize_assessment raw canon d) cat = none) ∧
    (∀ cat : String, cat ∈ recognizedCats → lookupKey canon cat = none →
      lookupKey (canonicalize_assessment raw canon d) cat = some []) := by
  intro raw canon d
  refine ⟨rfl, ?_, ?_⟩
  · intro cat hcat
    rw [lookupKey_canonicalize, if_neg hcat]
  · intro cat hcat hnone
    rw [lookupKey_canonicalize, if_pos hcat, hnone]
    rfl

/-- Witness for C8 on concrete inputs. -/
theorem canonicalize_top_level_witness :
    (("Other" : String) ∉ recognizedCats ∧
     lookupKey (canonicalize_assessment [] [] 2) "Other" = none) ∧
    (("Operations" : String) ∈ recognizedCats ∧
     lookupKey (canonicalize_assessment [] [] 2) "Operations" = some []) :=
  ⟨⟨by decide, (canonicalize_top_level [] [] 2).2.1 "Other" (by decide)⟩,
   ⟨by decide, (canonicalize_top_level [] [] 2).2.2 "Operations" (by decide) (by decide)⟩⟩

/-! ### Alias and normalized-match resolution lemmas -/

lemma aliasScore_eq_none_iff (amap : List (String × String))
    (rawCat : List (String × Int)) (sc : String) :
    aliasScore amap rawCat sc = none ↔
      ∀ old, (old, sc) ∈ amap → lookupKey rawCat old = none := by
  induction amap with
  | nil => simp [aliasScore]
  | cons kv rest ih =>
    obtain ⟨o, n⟩ := kv
    by_cases hn : n = sc
    · subst hn
      cases hlo : lookupKey rawCat o with
      | some v =>
        simp only [aliasScore, eq_self_iff_true, if_true, hlo]
        constructor
        · intro h; cases h
        · intro h
          have h2 := h o (List.mem_cons_self _ _)
          rw [h2] at hlo
          cases hlo
      | none =>
        simp only [aliasScore, eq_self_iff_true, if_true, hlo, ih]
        constructor
        · intro h old hold
          rcases List.mem_cons.mp hold with heq | hmem
          · injection heq with h1 h2
            subst h1
            exact hlo
          · exact h old hmem
        · intro h old hold
          exact h old (List.mem_cons_of_mem _ hold)
    · simp only [aliasScore, if_neg hn, ih]
      constructor
      · intro h old hold
        rcases List.mem_cons.mp hold with heq | hmem
        · exfalso
          injection heq with h1 h2
          exact hn h2.symm
        · exact h old hmem
      · intro h old hold
        exact h old (List.mem_cons_of_mem _ hold)

lemma aliasScore_eq_some (amap : List (String × String))
    (rawCat : List (String × Int)) (sc : String) (v : Int) :
    aliasScore amap rawCat sc = some v →
      ∃ old, (old, sc) ∈ amap ∧ lookupKey rawCat old = some v := by
  induction amap with
  | nil => intro h; simp [aliasScore] at h
  | cons kv rest ih =>
    obtain ⟨o, n⟩ := kv
    intro h
    by_cases hn : n = sc
    · subst hn
      cases hlo : lookupKey rawCat o with
      | some w =>
        simp only [aliasScore, eq_self_iff_true, if_true, hlo, Option.some.injEq] at h
        subst h
        exact ⟨o, List.mem_cons_self _ _, hlo⟩
      | none =>
        simp only [aliasScore, eq_self_iff_true, if_true, hlo] at h
        obtain ⟨old, hmem, hl⟩ := ih h
        exact ⟨old, List.mem_cons_of_mem _ hmem, hl⟩
    · simp only [aliasScore, if_neg hn] at h
      obtain ⟨old, hmem, hl⟩ := ih h
      exact ⟨old, List.mem_cons_of_mem _ hmem, hl⟩

lemma lookupKey_foldl_norm_none (rawCat : List (String × Int))
    (init : List (String × Int)) (ns : String) :
    lookupKey (rawCat.foldl (fun d kv => setEntry d (normKey kv.1) kv.2) init) ns = none ↔
      lookupKey init ns = none ∧ ∀ kv ∈ rawCat, normKey kv.1 ≠ ns := by
  induction rawCat generalizing init with
  | nil => simp
  | cons kv rest ih =>
    obtain ⟨k, v⟩ := kv
    simp only [List.foldl_cons]
    rw [ih, lookupKey_setEntry]
    by_cases h : normKey k = ns
    · simp [h, List.forall_mem_cons]
    · simp [h, List.forall_mem_cons]

lemma lookupKey_foldl_norm_some (rawCat : List (String × Int))
    (init : List (String × Int)) (ns : String) (v : Int) :
    lookupKey (rawCat.foldl (fun d kv => setEntry d (normKey kv.1) kv.2) init) ns = some v →
      (∃ kv, kv ∈ rawCat ∧ normKey kv.1 = ns ∧ kv.2 = v) ∨ lookupKey init ns = some v := by
  induction rawCat generalizing init with
  | nil => intro h; exact Or.inr (by simpa using h)
  | cons kv rest ih =>
    obtain ⟨k, w⟩ := kv
    intro h
    simp only [List.foldl_cons] at h
    rcases ih _ h with hmem | hinit
    · obtain ⟨kv2, h1, h2, h3⟩ := hmem
      exact Or.inl ⟨kv2, List.mem_cons_of_mem _ h1, h2, h3⟩
    · rw [lookupKey_setEntry] at hinit
      by_cases hk : normKey k = ns
      · rw [if_pos hk] at hinit
        injection hinit with hwv
        subst hwv
        exact Or.inl ⟨(k, w), List.mem_cons_self _ _, hk, rfl⟩
      · rw [if_neg hk] at hinit
        exact Or.inr hinit

lemma normScore_eq_none_iff (rawCat : List (String × Int)) (sc : String) :
    normScore rawCat sc = none ↔ ∀ kv ∈ rawCat, normKey kv.1 ≠ normKey sc := by
  unfold normScore buildNormDict
  rw [lookupKey_foldl_norm_none]
  simp [lookupKey]

lemma normScore_eq_some (rawCat : List (String × Int)) (sc : String) (v : Int)
    (h : normScore rawCat sc = some v) :
    ∃ kv, kv ∈ rawCat ∧ normKey kv.1 = normKey sc ∧ kv.2 = v := by
  unfold normScore buildNormDict at h
  rcases lookupKey_foldl_norm_some _ _ _ _ h with h1 | h2
  · exact h1
  · simp [lookupKey] at h2

/-- C2: score resolution precedence in `canonicalize_assessment` — for a
canonical subcategory `sc` of a recognized category: (1) a verbatim raw key
`sc` wins; (2) otherwise an alias entry `(old, sc)` with `old` present in
the raw scores supplies the value at some such alias key; (3) otherwise a
raw key with the same normalized form as `sc` supplies its value; (4)
otherwise the default score is used.  Values are integers throughout. -/
theorem canonicalize_precedence :
    ∀ (raw : List (String × List (String × Int))) (canon : List (String × List String))
      (d : Int) (cat sc : String), cat ∈ recognizedCats →
    sc ∈ (lookupKey canon cat).getD [] →
    ∃ m, lookupKey (canonicalize_assessment raw canon d) cat = some m ∧
      (∀ v, lookupKey ((lookupKey raw cat).getD []) sc = some v →
        lookupKey m sc = some v) ∧
      (lookupKey ((lookupKey raw cat).getD []) sc = none →
        ∀ old, (old, sc) ∈ (lookupKey ALIASES cat).getD [] →
          (lookupKey ((lookupKey raw cat).getD []) old).isSome →
          ∃ old2 v, (old2, sc) ∈ (lookupKey ALIASES cat).getD [] ∧
            lookupKey ((lookupKey raw cat).getD []) old2 = some v ∧
            lookupKey m sc = some v) ∧
      (lookupKey ((lookupKey raw cat).getD []) sc = none →
        (∀ old, (old, sc) ∈ (lookupKey ALIASES cat).getD [] →
          lookupKey ((lookupKey raw cat).getD []) old = none) →
        (∃ kv, kv ∈ (lookupKey raw cat).getD [] ∧ normKey kv.1 = normKey sc) →
        ∃ k2 v2, (k2, v2) ∈ (lookupKey raw cat).getD [] ∧
          normKey k2 = normKey sc ∧ lookupKey m sc = some v2) ∧
      (lookupKey ((lookupKey raw cat).getD []) sc = none →
        (∀ old, (old, sc) ∈ (lookupKey ALIASES cat).getD [] →
          lookupKey ((lookupKey raw cat).getD []) old = none) →
        (∀ kv, kv ∈ (lookupKey raw cat).getD [] → normKey kv.1 ≠ normKey sc) →
        lookupKey m sc = some d) := by
  intro raw canon d cat sc hcat hsc
  refine ⟨((lookupKey canon cat).getD []).foldl
      (fun m sc2 => setEntry m sc2
        (resolveScore ((lookupKey raw cat).getD [])
          ((lookupKey ALIASES cat).getD []) sc2 d)) [], ?_, ?_, ?_, ?_, ?_⟩
  · rw [lookupKey_canonicalize, if_pos hcat]
  · intro v hv
    rw [lookupKey_foldl_set, if_pos hsc]
    simp [resolveScore, hv]
  · intro hnone old hmem hsome
    have halias : aliasScore ((lookupKey ALIASES cat).getD [])
        ((lookupKey raw cat).getD []) sc ≠ none := by
      intro hcontra
      rw [aliasScore_eq_none_iff] at hcontra
      rw [hcontra old hmem] at hsome
      cases hsome
    obtain ⟨w, hw⟩ := Option.ne_none_iff_exists.mp halias
    obtain ⟨old2, hmem2, hl2⟩ := aliasScore_eq_some _ _ _ _ hw.symm
    refine ⟨old2, w, hmem2, hl2, ?_⟩
    rw [lookupKey_foldl_set, if_pos hsc]
    simp [resolveScore, hnone, hw.symm]
  · intro hnone haliasnone hex
    have halias : aliasScore ((lookupKey ALIASES cat).getD [])
        ((lookupKey raw cat).getD []) sc = none :=
      (aliasScore_eq_none_iff _ _ _).mpr haliasnone
    have hnorm : normScore ((lookupKey raw cat).getD []) sc ≠ none := by
      intro hcontra
      rw [normScore_eq_none_iff] at hcontra
      obtain ⟨kv, hkv, hkeq⟩ := hex
      exact hcontra kv hkv hkeq
    obtain ⟨w, hw⟩ := Option.ne_none_iff_exists.mp hnorm
    obtain ⟨kv2, hkv2, hkeq2, hval2⟩ := normScore_eq_some _ _ _ hw.symm
    refine ⟨kv2.1, kv2.2, ?_, hkeq2, ?_⟩
    · simpa using hkv2
    · rw [lookupKey_foldl_set, if_pos hsc]
      simp [resolveScore, hnone, halias, hw.symm, hval2]
  · intro hnone haliasnone hnormnone
    have halias : aliasScore ((lookupKey ALIASES cat).getD [])
        ((lookupKey raw cat).getD []) sc = none :=
      (aliasScore_eq_none_iff _ _ _).mpr haliasnone
    have hnorm : normScore ((lookupKey raw cat).getD []) sc = none :=
      (normScore_eq_none_iff _ _).mpr hnormnone
    rw [lookupKey_foldl_set, if_pos hsc]
    simp [resolveScore, hnone, halias, hnorm]

/-- Witness for C2 on the spec's end-to-end example: raw
`{"Operations": {"Monitoring & Alerting": 4}}` against a taxonomy with
`["Monitoring & Alerting", "Change Management"]`. -/
theorem canonicalize_precedence_witness :
    ("Operations" : String) ∈ recognizedCats ∧
    ("Monitoring & Alerting" : String) ∈
      (lookupKey [("Operations", ["Monitoring & Alerting", "Change Management"])]
        "Operations").getD [] ∧
    ∃ m, lookupKey (canonicalize_assessment
        [("Operations", [("Monitoring & Alerting", (4 : Int))])]
        [("Operations", ["Monitoring & Alerting", "Change Management"])] 2)
        "Operations" = some m ∧
      (∀ v, lookupKey ((lookupKey [("Operations", [("Monitoring & Alerting", (4 : Int))])]
          "Operations").getD []) "Monitoring & Alerting" = some v →
        lookupKey m "Monitoring & Alerting" = some v) ∧
      (lookupKey ((lookupKey [("Operations", [("Monitoring & Alerting", (4 : Int))])]
          "Operations").getD []) "Monitoring & Alerting" = none →
        ∀ old, (old, "Monitoring & Alerting") ∈
            (lookupKey ALIASES "Operations").getD [] →
          (lookupKey ((lookupKey [("Operations", [("Monitoring & Alerting", (4 : Int))])]
            "Operations").getD []) old).isSome →
          ∃ old2 v, (old2, "Monitoring & Alerting") ∈
              (lookupKey ALIASES "Operations").getD [] ∧
            lookupKey ((lookupKey [("Operations", [("Monitoring & Alerting", (4 : Int))])]
              "Operations").getD []) old2 = some v ∧
            lookupKey m "Monitoring & Alerting" = some v) ∧
      (lookupKey ((lookupKey [("Operations", [("Monitoring & Alerting", (4 : Int))])]
          "Operations").getD []) "Monitoring & Alerting" = none →
        (∀ old, (old, "Monitoring & Alerting") ∈
            (lookupKey ALIASES "Operations").getD [] →
          lookupKey ((lookupKey [("Operations", [("Monitoring & Alerting", (4 : Int))])]
            "Operations").getD []) old = none) →
        (∃ kv, kv ∈ (lookupKey [("Operations", [("Monitoring & Alerting", (4 : Int))])]
            "Operations").getD [] ∧
          normKey kv.1 = normKey "Monitoring & Alerting") →
        ∃ k2 v2, (k2, v2) ∈ (lookupKey [("Operations", [("Monitoring & Alerting", (4 : Int))])]
            "Operations").getD [] ∧
          normKey k2 = normKey "Monitoring & Alerting" ∧
          lookupKey m "Monitoring & Alerting" = some v2) ∧
      (lookupKey ((lookupKey [("Operations", [("Monitoring & Alerting", (4 : Int))])]
          "Operations").getD []) "Monitoring & Alerting" = none →
        (∀ old, (old, "Monitoring & Alerting") ∈
            (lookupKey ALIASES "Operations").getD [] →
          lookupKey ((lookupKey [("Operations", [("Monitoring & Alerting", (4 : Int))])]
            "Operations").getD []) old = none) →
        (∀ kv, kv ∈ (lookupKey [("Operations", [("Monitoring & Alerting", (4 : Int))])]
            "Operations").getD [] → normKey kv.1 ≠ normKey "Monitoring & Alerting") →
        lookupKey m "Monitoring & Alerting" = some 2) :=
  ⟨by decide, by decide,
   canonicalize_precedence [("Operations", [("Monitoring & Alerting", (4 : Int))])]
     [("Operations", ["Monitoring & Alerting", "Change Management"])] 2
     "Operations" "Monitoring & Alerting" (by decide) (by decide)⟩

/-! ### Parse-loop characterization -/

lemma lookupKey_appendEntry (d : List (String × List String)) (k k1 x : String) :
    lookupKey (appendEntry d k x) k1 =
      if k1 = k then (lookupKey d k1).map (fun v => v ++ [x])
      else lookupKey d k1 := by
  induction d with
  | nil =>
    simp [appendEntry, lookupKey]
  | cons kv rest ih =>
    obtain ⟨k2, v2⟩ := kv
    by_cases h2 : k2 = k
    · subst h2
      simp only [appendEntry, if_pos rfl, lookupKey]
      by_cases h1 : k2 = k1
      · subst h1
        simp [lookupKey]
      · have h1s : ¬ (k1 = k2) := fun hh => h1 hh.symm
        simp [lookupKey, h1, h1s, ih]
    · simp only [appendEntry, if_neg h2, lookupKey]
      by_cases h1 : k2 = k1
      · subst h1
        have h2s : ¬ (k2 = k) := h2
        simp [lookupKey, fun hh => h2 (hh : k2 = k)]
      · simp [lookupKey, h1, ih]

lemma opensCat_true_iff (cat raw : String) :
    opensCat cat raw = true ↔
      isH2 (strip raw) = true ∧ h2Of (strip raw) = cat := by
  simp [opensCat, Bool.and_eq_true]

lemma parseLoop_lookup (cat : String) (hcat : cat ∈ recognizedCats) :
    ∀ (ls : List String) (cats : List (String × List String)) (cur : Option String),
    lookupKey (parseLoop cats cur ls) cat =
      match collectAfterLast cat ls with
      | some v => some v
      | none => (lookupKey cats cat).map
          (fun v => v ++ (if cur = some cat then leadBullets ls else [])) := by
  intro ls
  induction ls with
  | nil =>
    intro cats cur
    simp only [parseLoop, collectAfterLast, leadBullets]
    cases lookupKey cats cat <;> simp
  | cons raw ls ih =>
    intro cats cur
    by_cases hH : isH2 (strip raw) = true
    · by_cases hrec : h2Of (strip raw) ∈ recognizedCats
      · simp only [parseLoop, hH, if_true, hrec, if_pos]
        rw [ih]
        cases hc : collectAfterLast cat ls with
        | some v =>
          simp only [collectAfterLast, hc]
        | none =>
          simp only [collectAfterLast, hc]
          by_cases hceq : h2Of (strip raw) = cat
          · rw [hceq]
            have hopen : opensCat cat raw = true :=
              (opensCat_true_iff cat raw).mpr ⟨hH, hceq⟩
            simp only [hopen, if_true, lookupKey_setEntry, if_pos rfl]
            simp
          · have hopen : opensCat cat raw = false := by
              rw [← Bool.not_eq_true]
              intro hcontra
              exact hceq ((opensCat_true_iff cat raw).mp hcontra).2
            simp only [hopen, Bool.false_eq_true, if_false]
            rw [lookupKey_setEntry, if_neg hceq]
            have hne : ¬ (some (h2Of (strip raw)) = some cat) := by
              intro hcontra
              exact hceq (Option.some.inj hcontra)
            simp only [hne, if_false, leadBullets, hH, if_true]
            cases lookupKey cats cat <;> simp
      · simp only [parseLoop, hH, if_true, hrec, if_neg, if_false]
        rw [ih]
        have hceq : ¬ (h2Of (strip raw) = cat) := fun hcontra => hrec (hcontra ▸ hcat)
        cases hc : collectAfterLast cat ls with
        | some v => simp only [collectAfterLast, hc]
        | none =>
          have hopen : opensCat cat raw = false := by
            rw [← Bool.not_eq_true]
            intro hcontra
            exact hceq ((opensCat_true_iff cat raw).mp hcontra).2
          simp only [collectAfterLast, hc, hopen, Bool.false_eq_true, if_false]
          simp only [leadBullets, hH, if_true]
          have hne : ¬ ((none : Option String) = some cat) := by simp
          simp only [hne, if_false]
          cases lookupKey cats cat <;> simp
    · have hopen : opensCat cat raw = false := by
        rw [← Bool.not_eq_true]
        intro hcontra
        exact hH ((opensCat_true_iff cat raw).mp hcontra).1
      by_cases hB : isBullet (strip raw) = true
      · cases cur with
        | some c =>
          simp only [parseLoop, hH, Bool.false_eq_true, if_false, hB, if_true]
          rw [ih]
          cases hc : collectAfterLast cat ls with
          | some v => simp only [collectAfterLast, hc]
          | none =>
            simp only [collectAfterLast, hc, hopen, Bool.false_eq_true, if_false]
            simp only [leadBullets, hH, Bool.false_eq_true, if_false, hB, if_true]
            rw [lookupKey_appendEntry]
            by_cases hcc : c = cat
            · subst hcc
              simp only [if_pos rfl]
              cases lookupKey cats c <;> simp
            · have h1 : ¬ (cat = c) := fun hh => hcc hh.symm
              have h2 : ¬ (some c = some cat) := by
                intro hcontra
                exact hcc (Option.some.inj hcontra)
              simp only [if_neg h1, h2, if_false]
        | none =>
          simp only [parseLoop, hH, Bool.false_eq_true, if_false, hB, if_true]
          rw [ih]
          cases hc : collectAfterLast cat ls with
          | some v => simp only [collectAfterLast, hc]
          | none =>
            simp only [collectAfterLast, hc, hopen, Bool.false_eq_true, if_false]
            have hne : ¬ ((none : Option String) = some cat) := by simp
            simp only [hne, if_false]
      · simp only [parseLoop, hH, Bool.false_eq_true, if_false, hB]
        rw [ih]
        cases hc : collectAfterLast cat ls with
        | some v => simp only [collectAfterLast, hc]
        | none =>
          simp only [collectAfterLast, hc, hopen, Bool.false_eq_true, if_false]
          simp only [leadBullets, hH, Bool.false_eq_true, if_false, hB]

lemma lookupKey_map_dedup (d : List (String × List String)) (k : String) :
    lookupKey (d.map (fun kv => (kv.1, dedupFirst kv.2))) k =
      (lookupKey d k).map dedupFirst := by
  induction d with
  | nil => rfl
  | cons kv rest ih =>
    obtain ⟨k1, v1⟩ := kv
    by_cases h : k1 = k <;> simp [lookupKey, h, ih]

lemma parseLines_lookup (cat : String) (hcat : cat ∈ recognizedCats)
    (ls : List String) :
    lookupKey (parseLines ls) cat = (collectAfterLast cat ls).map dedupFirst := by
  unfold parseLines
  rw [lookupKey_map_dedup, parseLoop_lookup cat hcat ls [] none]
  cases hc : collectAfterLast cat ls <;> simp [lookupKey]

lemma collectAfterLast_cons_of_not_open (cat raw : String) (ls : List String)
    (h : opensCat cat raw = false) :
    collectAfterLast cat (raw :: ls) = collectAfterLast cat ls := by
  cases hc : collectAfterLast cat ls <;> simp [collectAfterLast, hc, h]

lemma collectAfterLast_isSome (cat : String) :
    ∀ ls : List String, (collectAfterLast cat ls).isSome = ls.any (opensCat cat) := by
  intro ls
  induction ls with
  | nil => rfl
  | cons raw ls ih =>
    cases hc : collectAfterLast cat ls with
    | some v =>
      have hany : ls.any (opensCat cat) = true := by rw [← ih, hc]; rfl
      simp [collectAfterLast, hc, List.any_cons, hany]
    | none =>
      have hany : ls.any (opensCat cat) = false := by rw [← ih, hc]; rfl
      by_cases ho : opensCat cat raw = true <;>
        simp [collectAfterLast, hc, List.any_cons, hany, ho]

lemma countHeading_cons (cat raw : String) (ls : List String) :
    countHeading cat (raw :: ls) =
      (if opensCat cat raw = true then 1 else 0) + countHeading cat ls := by
  by_cases h : opensCat cat raw = true
  · simp [countHeading, List.filter_cons, h]
    omega
  · simp [countHeading, List.filter_cons, h]

lemma specCollect_no_heading (cat : String) :
    ∀ ls : List String, countHeading cat ls = 0 →
      collectAfterLast cat ls = none ∧
      ∀ cur : Option String, specCollect cat cur ls =
        if cur = some cat then leadBullets ls else [] := by
  intro ls
  induction ls with
  | nil =>
    intro h
    refine ⟨rfl, ?_⟩
    intro cur
    simp [specCollect, leadBullets]
  | cons raw ls ih =>
    intro h
    rw [countHeading_cons] at h
    have hopen : opensCat cat raw = false := by
      by_cases ho : opensCat cat raw = true
      · rw [ho] at h; simp at h
      · simpa using ho
    have hrest : countHeading cat ls = 0 := by
      rw [hopen] at h
      simpa using h
    obtain ⟨hc, hs⟩ := ih hrest
    refine ⟨?_, ?_⟩
    · rw [collectAfterLast_cons_of_not_open cat raw ls hopen]
      exact hc
    · intro cur
      by_cases hH : isH2 (strip raw) = true
      · have hne : h2Of (strip raw) ≠ cat := by
          intro hcontra
          have hcontra2 : opensCat cat raw = true :=
            (opensCat_true_iff _ _).mpr ⟨hH, hcontra⟩
          rw [hcontra2] at hopen
          cases hopen
        have hlead : leadBullets (raw :: ls) = [] := by
          simp [leadBullets, hH]
        by_cases hrec : h2Of (strip raw) ∈ recognizedCats
        · simp only [specCollect, hH, if_true, hrec, if_pos]
          rw [hs (some (h2Of (strip raw)))]
          have hne2 : ¬ (some (h2Of (strip raw)) = some cat) := by
            intro hcontra
            exact hne (Option.some.inj hcontra)
          simp only [hne2, if_false, hlead]
          split_ifs <;> rfl
        · simp only [specCollect, hH, if_true, hrec, if_neg, if_false]
          rw [hs none]
          have hne2 : ¬ ((none : Option String) = some cat) := by simp
          simp only [hne2, if_false, hlead]
          split_ifs <;> rfl
      · by_cases hB : isBullet (strip raw) = true
        · have hlead : leadBullets (raw :: ls) =
              bulletItem (strip raw) :: leadBullets ls := by
            simp [leadBullets, hH, hB]
          simp only [specCollect, hH, Bool.false_eq_true, if_false, hB, if_true]
          rw [hs cur, hlead]
          by_cases hcur : cur = some cat
          · simp [hcur]
          · simp [hcur]
        · have hlead : leadBullets (raw :: ls) = leadBullets ls := by
            simp [leadBullets, hH, hB]
          simp only [specCollect, hH, Bool.false_eq_true, if_false, hB]
          rw [hs cur, hlead]

lemma specCollect_single_heading (cat : String) (hcat : cat ∈ recognizedCats) :
    ∀ ls : List String, countHeading cat ls ≤ 1 →
      ∀ cur : Option String, cur ≠ some cat →
        specCollect cat cur ls = (collectAfterLast cat ls).getD [] := by
  intro ls
  induction ls with
  | nil =>
    intro h cur hcur
    simp [specCollect, collectAfterLast]
  | cons raw ls ih =>
    intro h cur hcur
    rw [countHeading_cons] at h
    by_cases hopen : opensCat cat raw = true
    · have hrest : countHeading cat ls = 0 := by
        rw [hopen] at h
        simpa using h
      obtain ⟨hcnone, hs⟩ := specCollect_no_heading cat ls hrest
      obtain ⟨hH, hceq⟩ := (opensCat_true_iff cat raw).mp hopen
      have hrec : h2Of (strip raw) ∈ recognizedCats := by rw [hceq]; exact hcat
      simp only [specCollect, hH, if_true, hrec, if_pos]
      rw [hceq, hs (some cat)]
      simp only [if_pos rfl]
      simp [collectAfterLast, hcnone, hopen]
    · have hopen2 : opensCat cat raw = false := by simpa using hopen
      have hrest : countHeading cat ls ≤ 1 := by
        rw [hopen2] at h
        simpa using h
      rw [collectAfterLast_cons_of_not_open cat raw ls hopen2]
      by_cases hH : isH2 (strip raw) = true
      · have hne : h2Of (strip raw) ≠ cat := by
          intro hcontra
          have hcontra2 : opensCat cat raw = true :=
            (opensCat_true_iff _ _).mpr ⟨hH, hcontra⟩
          rw [hcontra2] at hopen2
          cases hopen2
        by_cases hrec : h2Of (strip raw) ∈ recognizedCats
        · simp only [specCollect, hH, if_true, hrec, if_pos]
          exact ih hrest (some (h2Of (strip raw)))
            (fun hcontra => hne (Option.some.inj hcontra))
        · simp only [specCollect, hH, if_true, hrec, if_neg, if_false]
          exact ih hrest none (by simp)
      · by_cases hB : isBullet (strip raw) = true
        · simp only [specCollect, hH, Bool.false_eq_true, if_false, hB, if_true]
          have hcur2 : ¬ (cur = some cat) := hcur
          simp only [hcur2, if_false]
          exact ih hrest cur hcur
        · simp only [specCollect, hH, Bool.false_eq_true, if_false, hB]
          exact ih hrest cur hcur

/-- C6: a missing taxonomy file, or any exception raised while reading it,
makes `parse_canonical_categories` return the built-in default taxonomy
(the key lists of the default assessment) instead of raising. -/
theorem parse_fallback_on_missing_or_error :
    parse_canonical_categories none = defaultTaxonomy ∧
    parse_canonical_categories (some (Except.error ())) = defaultTaxonomy :=
  ⟨rfl, rfl⟩

/-- C10: for a recognized category the parsed subcategory list is exactly
the (deduplicated) bullets collected after the LAST occurrence of that
category's heading — every later occurrence resets the collected list, so
bullets under earlier occurrences are discarded. -/
theorem parse_duplicate_heading_resets :
    ∀ (ls : List String) (cat : String), cat ∈ recognizedCats →
    lookupKey (parse_canonical_categories (some (Except.ok ls))) cat =
      (collectAfterLast cat ls).map dedupFirst := by
  intro ls cat hcat
  exact parseLines_lookup cat hcat ls

/-- Witness for C10: with `## Operations` appearing twice, only the bullets
after the second occurrence survive. -/
theorem parse_duplicate_heading_resets_witness :
    ("Operations" : String) ∈ recognizedCats ∧
    lookupKey (parse_canonical_categories (some (Except.ok
        ["## Operations", "- A", "## Operations", "- B"]))) "Operations" =
      (collectAfterLast "Operations"
        ["## Operations", "- A", "## Operations", "- B"]).map dedupFirst ∧
    lookupKey (parse_canonical_categories (some (Except.ok
        ["## Operations", "- A", "## Operations", "- B"]))) "Operations" =
      some ["B"] :=
  ⟨by decide,
   parse_duplicate_heading_resets ["## Operations", "- A", "## Operations", "- B"]
     "Operations" (by decide),
   by decide⟩

/-- C9: if the taxonomy file exists and reading raises nothing, but no
recognized category heading occurs, the parse returns the (empty) mapping
built from the scopes actually seen and does NOT fall back to the default
taxonomy. -/
theorem parse_no_fallback_without_headings :
    ∀ ls : List String, (∀ raw ∈ ls, opensScope raw = false) →
    parse_canonical_categories (some (Except.ok ls)) = [] ∧
    parse_canonical_categories (some (Except.ok ls)) ≠ defaultTaxonomy := by
  intro ls h
  have h1 : parse_canonical_categories (some (Except.ok ls)) = [] := by
    show parseLines ls = []
    unfold parseLines
    have h2 : parseLoop [] none ls = [] := by
      have hgen : ∀ ls2 : List String, (∀ raw ∈ ls2, opensScope raw = false) →
          ∀ cats : List (String × List String), parseLoop cats none ls2 = cats := by
        intro ls2
        induction ls2 with
        | nil => intro _ cats; rfl
        | cons raw ls2 ih =>
          intro hall cats
          have hraw := hall raw (List.mem_cons_self _ _)
          have hrest : ∀ r ∈ ls2, opensScope r = false :=
            fun r hr => hall r (List.mem_cons_of_mem _ hr)
          by_cases hH : isH2 (strip raw) = true
          · have hrec : ¬ (h2Of (strip raw) ∈ recognizedCats) := by
              intro hcontra
              have : opensScope raw = true := by
                simp [opensScope, hH, hcontra]
              rw [hraw] at this
              cases this
            simp only [parseLoop, hH, if_true, hrec, if_neg, if_false]
            exact ih hrest cats
          · by_cases hB : isBullet (strip raw) = true
            · simp only [parseLoop, hH, Bool.false_eq_true, if_false, hB, if_true]
              exact ih hrest cats
            · simp only [parseLoop, hH, Bool.false_eq_true, if_false, hB]
              exact ih hrest cats
      exact hgen ls h []
    rw [h2]
    rfl
  refine ⟨h1, ?_⟩
  rw [h1]
  exact fun hcontra =>
    (by decide : ¬ (([] : List (String × List String)) = defaultTaxonomy)) hcontra

/-- Witness for C9: a file with an unrecognized heading and a bullet. -/
theorem parse_no_fallback_without_headings_witness :
    (∀ raw ∈ ["## Random", "- x"], opensScope raw = false) ∧
    parse_canonical_categories (some (Except.ok ["## Random", "- x"])) = [] ∧
    parse_canonical_categories (some (Except.ok ["## Random", "- x"])) ≠
      defaultTaxonomy :=
  ⟨by decide,
   (parse_no_fallback_without_headings ["## Random", "- x"] (by decide)).1,
   (parse_no_fallback_without_headings ["## Random", "- x"] (by decide)).2⟩

/-- C5: when each recognized heading occurs at most once, the parsed list
for a recognized category is exactly the trimmed bullet items collected
while that category's scope is open (a heading exactly matching one of the
three names opens a scope, any other heading closes it, bullets outside a
scope are ignored), deduplicated keeping first occurrences; `none` when the
heading never occurs. -/
theorem parse_scope_collection :
    ∀ (ls : List String) (cat : String), cat ∈ recognizedCats →
    countHeading cat ls ≤ 1 →
    lookupKey (parse_canonical_categories (some (Except.ok ls))) cat =
      (if ls.any (opensCat cat) = true
       then some (dedupFirst (specCollect cat none ls))
       else none) := by
  intro ls cat hcat hcount
  have hmain := parseLines_lookup cat hcat ls
  by_cases hany : ls.any (opensCat cat) = true
  · have hsome : (collectAfterLast cat ls).isSome = true := by
      rw [collectAfterLast_isSome]
      exact hany
    obtain ⟨v, hv⟩ := Option.isSome_iff_exists.mp hsome
    have hspec := specCollect_single_heading cat hcat ls hcount none (by simp)
    rw [hv] at hspec
    simp only [Option.getD_some] at hspec
    show lookupKey (parseLines ls) cat = _
    rw [hmain, hv, if_pos hany, hspec]
    rfl
  · have hnone2 : collectAfterLast cat ls = none := by
      rw [← Option.not_isSome_iff_eq_none, collectAfterLast_isSome]
      simpa using hany
    show lookupKey (parseLines ls) cat = _
    rw [hmain, hnone2, if_neg hany]
    rfl

/-- Witness for C5 on the spec's example document with headings
Operations, Users, Random, Devices: bullets under Random are discarded and
a duplicated bullet appears once. -/
theorem parse_scope_collection_witness :
    ("Devices" : String) ∈ recognizedCats ∧
    countHeading "Devices" ["## Operations", "- A", "- B", "## Users", "- C",
      "## Random", "- D", "## Devices", "- E", "- E"] ≤ 1 ∧
    lookupKey (parse_canonical_categories (some (Except.ok
        ["## Operations", "- A", "- B", "## Users", "- C",
         "## Random", "- D", "## Devices", "- E", "- E"]))) "Devices" =
      (if (["## Operations", "- A", "- B", "## Users", "- C",
            "## Random", "- D", "## Devices", "- E", "- E"].any
              (opensCat "Devices")) = true
       then some (dedupFirst (specCollect "Devices" none
         ["## Operations", "- A", "- B", "## Users", "- C",
          "## Random", "- D", "## Devices", "- E", "- E"]))
       else none) ∧
    lookupKey (parse_canonical_categories (some (Except.ok
        ["## Operations", "- A", "- B", "## Users", "- C",
         "## Random", "- D", "## Devices", "- E", "- E"]))) "Devices" =
      some ["E"] :=
  ⟨by decide, by decide,
   parse_scope_collection ["## Operations", "- A", "- B", "## Users", "- C",
     "## Random", "- D", "## Devices", "- E", "- E"] "Devices"
     (by decide) (by decide),
   by decide⟩
